import Mathlib

/-!
Shallow embedding of the sia-fuse in-memory filesystem (src/src/storage.rs and
src/src/fuse_impl.rs).

Modelling conventions:
* `HashMap<Inode, FileData>` becomes a function `Nat → Option FileData`
  (`Mem`), with `Mem.insert` and `Mem.erase` mirroring `insert`/`remove`.
* Mutation through `&self` becomes explicit state passing: each mutating
  operation returns the new `Store` together with the Rust return value.
* `DateTime<Utc>` timestamps become `Nat`; `Utc::now()` becomes an explicit
  `now : Nat` parameter, `libc::getuid()`/`getgid()` become `uid gid : Nat`
  parameters.
* Machine integers become `Nat`, with `% 2^w` exactly where the Rust type
  could wrap: the `u32` link count (`nlink += 1`, `nlink -= 1`) and the `u64`
  inode counter (`*next += 1`); byte contents are `List Nat`.
-/

/-- Mirrors `FileKind` in storage.rs. -/
inductive FileKind where
  | File : FileKind
  | Directory : FileKind
deriving DecidableEq

/-- Mirrors `FileAttr` in storage.rs (timestamps as `Nat`). -/
structure FileAttr where
  ino : Nat
  size : Nat
  kind : FileKind
  perm : Nat
  nlink : Nat
  uid : Nat
  gid : Nat
  rdev : Nat
  flags : Nat
  atime : Nat
  mtime : Nat
  ctime : Nat
deriving DecidableEq

/-- Mirrors `DirEntry` in storage.rs. -/
structure DirEntry where
  ino : Nat
  name : String
  kind : FileKind
deriving DecidableEq

/-- Mirrors `FileData` in storage.rs: attributes, content bytes, children. -/
structure FileData where
  attr : FileAttr
  content : List Nat
  children : List DirEntry
deriving DecidableEq

/-- The inode table `HashMap<Inode, FileData>` as a function map. -/
def Mem : Type := Nat → Option FileData

/-- `HashMap::insert` (overwrites an existing binding). -/
def Mem.insert (m : Mem) (k : Nat) (v : FileData) : Mem :=
  fun i => if i = k then some v else m i

/-- `HashMap::remove`. -/
def Mem.erase (m : Mem) (k : Nat) : Mem :=
  fun i => if i = k then none else m i

/-- The empty table. -/
def Mem.empty : Mem := fun _ => none

/-- Mirrors `InMemoryStorage`: the inode table plus the `next_inode` counter. -/
structure Store where
  files : Mem
  nextInode : Nat

/-- `InMemoryStorage::new()`: root directory at inode 1, counter at 2.
`0o755 = 493`. -/
def Store.new (uid gid now : Nat) : Store :=
  { files := Mem.insert Mem.empty 1
      { attr := { ino := 1, size := 0, kind := FileKind.Directory, perm := 493,
                  nlink := 2, uid := uid, gid := gid, rdev := 0, flags := 0,
                  atime := now, mtime := now, ctime := now },
        content := [], children := [] },
    nextInode := 2 }

/-- `InMemoryStorage::allocate_inode` (u64 counter, hence `% 2^64`). -/
def InMemoryStorage.allocate_inode (s : Store) : Store × Nat :=
  ({ s with nextInode := (s.nextInode + 1) % 2 ^ 64 }, s.nextInode)

/-- `InMemoryStorage::get_attr`. -/
def InMemoryStorage.get_attr (s : Store) (ino : Nat) : Option FileAttr :=
  (s.files ino).map (fun f => f.attr)

/-- `InMemoryStorage::set_attr`. -/
def InMemoryStorage.set_attr (s : Store) (ino : Nat) (attr : FileAttr) : Store × Bool :=
  match s.files ino with
  | some f => ({ s with files := Mem.insert s.files ino { f with attr := attr } }, true)
  | none => (s, false)

/-- `InMemoryStorage::read`: `content[offset..min(offset+size, len)]`,
empty (not absent) when `offset ≥ len`. -/
def InMemoryStorage.read (s : Store) (ino offset size : Nat) : Option (List Nat) :=
  (s.files ino).map (fun f =>
    let e := min (offset + size) f.content.length
    if f.content.length ≤ offset then [] else (f.content.take e).drop offset)

/-- `InMemoryStorage::write`: zero-extend to `offset + data.len()` if needed,
then `content[offset..end].copy_from_slice(data)`; size := new length. -/
def InMemoryStorage.write (s : Store) (ino offset : Nat) (data : List Nat)
    (now : Nat) : Store × Option Nat :=
  match s.files ino with
  | none => (s, none)
  | some f =>
    let e := offset + data.length
    let c1 := if f.content.length < e
              then f.content ++ List.replicate (e - f.content.length) 0
              else f.content
    let c2 := c1.take offset ++ data ++ c1.drop e
    let f' := { f with content := c2,
                       attr := { f.attr with size := c2.length, mtime := now } }
    ({ s with files := Mem.insert s.files ino f' }, some data.length)

/-- `InMemoryStorage::create_file`: allocate, insert the record, then append a
directory entry to `parent` if `parent` is (now) present in the table. -/
def InMemoryStorage.create_file (s : Store) (parent : Nat) (name : String)
    (perm uid gid now : Nat) : Store × Option FileAttr :=
  let a := InMemoryStorage.allocate_inode s
  let ino := a.2
  let attr : FileAttr :=
    { ino := ino, size := 0, kind := FileKind.File, perm := perm, nlink := 1,
      uid := uid, gid := gid, rdev := 0, flags := 0,
      atime := now, mtime := now, ctime := now }
  let files1 := Mem.insert a.1.files ino { attr := attr, content := [], children := [] }
  let files2 :=
    match files1 parent with
    | some pf => Mem.insert files1 parent
        { pf with children := pf.children ++ [{ ino := ino, name := name, kind := FileKind.File }],
                  attr := { pf.attr with mtime := now } }
    | none => files1
  ({ a.1 with files := files2 }, some attr)

/-- `InMemoryStorage::create_dir`: like `create_file`, with kind `Directory`,
`nlink 2`, and `parent.nlink += 1` (u32, hence `% 2^32`). -/
def InMemoryStorage.create_dir (s : Store) (parent : Nat) (name : String)
    (perm uid gid now : Nat) : Store × Option FileAttr :=
  let a := InMemoryStorage.allocate_inode s
  let ino := a.2
  let attr : FileAttr :=
    { ino := ino, size := 0, kind := FileKind.Directory, perm := perm, nlink := 2,
      uid := uid, gid := gid, rdev := 0, flags := 0,
      atime := now, mtime := now, ctime := now }
  let files1 := Mem.insert a.1.files ino { attr := attr, content := [], children := [] }
  let files2 :=
    match files1 parent with
    | some pf => Mem.insert files1 parent
        { pf with children := pf.children ++ [{ ino := ino, name := name, kind := FileKind.Directory }],
                  attr := { pf.attr with
                            mtime := now,
                            nlink := (pf.attr.nlink + 1) % 2 ^ 32 } }
    | none => files1
  ({ a.1 with files := files2 }, some attr)

/-- `InMemoryStorage::read_dir`. -/
def InMemoryStorage.read_dir (s : Store) (ino : Nat) : Option (List DirEntry) :=
  (s.files ino).map (fun f => f.children)

/-- `Iterator::position` fused with the subsequent index: first index and
entry satisfying the predicate. -/
def findEntry (p : DirEntry → Bool) : List DirEntry → Option (Nat × DirEntry)
  | [] => none
  | e :: es => if p e then some (0, e)
               else (findEntry p es).map (fun q => (q.1 + 1, q.2))

/-- `InMemoryStorage::unlink`: remove the first **File**-kind entry matching
`name` from `parent`'s children, then drop that inode's record. -/
def InMemoryStorage.unlink (s : Store) (parent : Nat) (name : String)
    (now : Nat) : Store × Bool :=
  match s.files parent with
  | none => (s, false)
  | some pf =>
    match findEntry (fun e => e.name == name && e.kind == FileKind.File) pf.children with
    | none => (s, false)
    | some q =>
      let files1 := Mem.insert s.files parent
        { pf with children := pf.children.eraseIdx q.1,
                  attr := { pf.attr with mtime := now } }
      ({ s with files := Mem.erase files1 q.2.ino }, true)

/-- `InMemoryStorage::rmdir`: find the first **Directory**-kind entry matching
`name`; fail without mutation if that inode's record exists and has children;
otherwise remove the entry, refresh mtime, `parent.nlink -= 1` (u32 wrapping),
and drop the record. -/
def InMemoryStorage.rmdir (s : Store) (parent : Nat) (name : String)
    (now : Nat) : Store × Bool :=
  match s.files parent with
  | none => (s, false)
  | some pf =>
    match findEntry (fun e => e.name == name && e.kind == FileKind.Directory) pf.children with
    | none => (s, false)
    | some q =>
      let blocked : Bool :=
        match s.files q.2.ino with
        | some dir => !dir.children.isEmpty
        | none => false
      if blocked then (s, false)
      else
        let files1 := Mem.insert s.files parent
          { pf with children := pf.children.eraseIdx q.1,
                    attr := { pf.attr with
                              mtime := now,
                              nlink := (pf.attr.nlink + (2 ^ 32 - 1)) % 2 ^ 32 } }
        ({ s with files := Mem.erase files1 q.2.ino }, true)

/-!
Protocol adapter (src/src/fuse_impl.rs). A name argument of `none` models an
`OsStr` that fails UTF-8 decoding. `usize::MAX` in setattr's full-range read
is `2^64 - 1`.
-/

/-- The errno values the adapter replies with. -/
inductive Errno where
  | ENOENT : Errno
  | ENOTEMPTY : Errno
  | EINVAL : Errno
  | EIO : Errno
deriving DecidableEq

/-- `usize::MAX` on a 64-bit target. -/
def usizeMax : Nat := 2 ^ 64 - 1

/-- `SiaFuseFilesystem::create`: decode the name, call `create_file` with
`mode as u16`, reply `created(attr)` on `Some` and `EIO` on `None`. -/
def fuseCreate (s : Store) (parent : Nat) (name : Option String)
    (mode uid gid now : Nat) : Store × Except Errno FileAttr :=
  match name with
  | none => (s, Except.error Errno.EINVAL)
  | some n =>
    match InMemoryStorage.create_file s parent n (mode % 2 ^ 16) uid gid now with
    | (s', some attr) => (s', Except.ok attr)
    | (s', none) => (s', Except.error Errno.EIO)

/-- `SiaFuseFilesystem::mkdir`: same shape over `create_dir`. -/
def fuseMkdir (s : Store) (parent : Nat) (name : Option String)
    (mode uid gid now : Nat) : Store × Except Errno FileAttr :=
  match name with
  | none => (s, Except.error Errno.EINVAL)
  | some n =>
    match InMemoryStorage.create_dir s parent n (mode % 2 ^ 16) uid gid now with
    | (s', some attr) => (s', Except.ok attr)
    | (s', none) => (s', Except.error Errno.EIO)

/-- `SiaFuseFilesystem::rmdir`: decode the name, call the store `rmdir`,
reply ok on `true` and `ENOTEMPTY` on `false`. -/
def fuseRmdir (s : Store) (parent : Nat) (name : Option String)
    (now : Nat) : Store × Except Errno Unit :=
  match name with
  | none => (s, Except.error Errno.EINVAL)
  | some n =>
    let r := InMemoryStorage.rmdir s parent n now
    if r.2 then (r.1, Except.ok ()) else (r.1, Except.error Errno.ENOTEMPTY)

/-- `SiaFuseFilesystem::setattr`: fetch the attributes, apply the partial
updates (`mode as u16` truncates), and on a size update to a file run the
read/slice-or-extend/write-back composition, then store the edited record. -/
def fuseSetattr (s : Store) (ino : Nat) (mode uid gid size : Option Nat)
    (now : Nat) : Store × Except Errno FileAttr :=
  match InMemoryStorage.get_attr s ino with
  | none => (s, Except.error Errno.ENOENT)
  | some a0 =>
    let a1 := match mode with
              | some m => { a0 with perm := m % 2 ^ 16 }
              | none => a0
    let a2 := match uid with
              | some u => { a1 with uid := u }
              | none => a1
    let a3 := match gid with
              | some g => { a2 with gid := g }
              | none => a2
    match size with
    | none =>
      let r := InMemoryStorage.set_attr s ino a3
      (r.1, Except.ok a3)
    | some sz =>
      let a4 := { a3 with size := sz }
      let s1 :=
        if a4.kind = FileKind.File then
          let current := (InMemoryStorage.read s ino 0 usizeMax).getD []
          if sz < current.length then
            (InMemoryStorage.write s ino 0 (current.take sz) now).1
          else if current.length < sz then
            (InMemoryStorage.write s ino 0
              (current ++ List.replicate (sz - current.length) 0) now).1
          else s
        else s
      let r := InMemoryStorage.set_attr s1 ino a4
      (r.1, Except.ok a4)

/-- One entry handed to `ReplyDirectory::add`: inode, the offset passed as the
resume cursor, kind, name. -/
abbrev ROut : Type := Nat × Nat × FileKind × String

/-- `ReplyDirectory::add` with an entry-count capacity: returns the (possibly
unchanged) buffer and `true` when the buffer is full (entry not added). -/
def replyAdd (cap : Nat) (buf : List ROut) (e : ROut) : List ROut × Bool :=
  if cap ≤ buf.length then (buf, true) else (buf ++ [e], false)

/-- The `for (i, entry) in entries.iter().enumerate()` loop of `readdir`:
skip entries with `i + 2 < offset`, add the rest until the reply is full. -/
def readdirLoop (cap offset : Nat) : Nat → List DirEntry → List ROut → List ROut
  | _, [], buf => buf
  | i, e :: es, buf =>
    if i + 2 < offset then readdirLoop cap offset (i + 1) es buf
    else
      match replyAdd cap buf (e.ino, i + 3, e.kind, e.name) with
      | (b, true) => b
      | (b, false) => readdirLoop cap offset (i + 1) es b

/-- The buffer `SiaFuseFilesystem::readdir` accumulates for a directory with
children `children`: `.` (cursor 1) when `offset == 0`, `..` (cursor 2) when
`offset <= 1`, then the stored entries with cursor `i + 3`. -/
def readdirBuf (children : List DirEntry) (ino offset cap : Nat) : List ROut :=
  if offset = 0 then
    match replyAdd cap [] (ino, 1, FileKind.Directory, ".") with
    | (b, true) => b
    | (b, false) =>
      match replyAdd cap b (ino, 2, FileKind.Directory, "..") with
      | (b2, true) => b2
      | (b2, false) => readdirLoop cap offset 0 children b2
  else if offset ≤ 1 then
    match replyAdd cap [] (ino, 2, FileKind.Directory, "..") with
    | (b, true) => b
    | (b, false) => readdirLoop cap offset 0 children b
  else readdirLoop cap offset 0 children []

/-- `SiaFuseFilesystem::readdir`: `ENOENT` (modelled `none`) when the inode is
missing, otherwise the accumulated buffer. -/
def fuseReaddir (s : Store) (ino offset cap : Nat) : Option (List ROut) :=
  (InMemoryStorage.read_dir s ino).map (fun children => readdirBuf children ino offset cap)

/-- Store states reachable from a fresh store through the public operations. -/
inductive Reachable : Store → Prop where
  | new : ∀ uid gid now, Reachable (Store.new uid gid now)
  | set_attr : ∀ s ino attr, Reachable s →
      Reachable (InMemoryStorage.set_attr s ino attr).1
  | write : ∀ s ino offset data now, Reachable s →
      Reachable (InMemoryStorage.write s ino offset data now).1
  | create_file : ∀ s parent name perm uid gid now, Reachable s →
      Reachable (InMemoryStorage.create_file s parent name perm uid gid now).1
  | create_dir : ∀ s parent name perm uid gid now, Reachable s →
      Reachable (InMemoryStorage.create_dir s parent name perm uid gid now).1
  | unlink : ∀ s parent name now, Reachable s →
      Reachable (InMemoryStorage.unlink s parent name now).1
  | rmdir : ∀ s parent name now, Reachable s →
      Reachable (InMemoryStorage.rmdir s parent name now).1

/-!
Spec-side definitions: the idealized full enumeration sequence of a
directory, and concrete sample stores used by witnesses.
-/

/-- The entry part of the enumeration sequence, from loop index `i` on:
entry `i` is reported with resume cursor `i + 3`. -/
def entSeq : Nat → List DirEntry → List ROut
  | _, [] => []
  | i, e :: es => (e.ino, i + 3, e.kind, e.name) :: entSeq (i + 1) es

/-- The unbroken enumeration sequence of a directory: `.` and `..` at
positions 0 and 1 (cursors 1 and 2), then the stored entries in order. -/
def dirSeq (ino : Nat) (children : List DirEntry) : List ROut :=
  (ino, 1, FileKind.Directory, ".") :: (ino, 2, FileKind.Directory, "..") ::
    entSeq 0 children

/-- Fresh store, then `create_file 1 "a"` (inode 2) and `create_dir 1 "d"`
(inode 3). -/
def demoStore : Store :=
  (InMemoryStorage.create_dir
    (InMemoryStorage.create_file (Store.new 0 0 0) 1 "a" 0 0 0 0).1
    1 "d" 0 0 0 0).1

/-- `demoStore` with content `[1, 2, 3]` written into file inode 2. -/
def demoContentStore : Store :=
  (InMemoryStorage.write demoStore 2 0 [1, 2, 3] 0).1

/-- Fresh store after two `create_file 1 "a"` calls: the root directory holds
two entries named `"a"`. -/
def dupStore : Store :=
  (InMemoryStorage.create_file
    (InMemoryStorage.create_file (Store.new 0 0 0) 1 "a" 0 0 0 0).1
    1 "a" 0 0 0 0).1

/-- The root record of `demoStore`, spelled out (used by witnesses). -/
def demoRoot : FileData :=
  { attr := { ino := 1, size := 0, kind := FileKind.Directory, perm := 493,
              nlink := 3, uid := 0, gid := 0, rdev := 0, flags := 0,
              atime := 0, mtime := 0, ctime := 0 },
    content := [],
    children := [{ ino := 2, name := "a", kind := FileKind.File },
                 { ino := 3, name := "d", kind := FileKind.Directory }] }

/-- Proof-side name for `write`'s growth step (`content.resize(end, 0)` when
`end > len`): the content zero-extended to `offset + data.length` if that
exceeds its length. -/
def wGrow (c : List Nat) (off : Nat) (data : List Nat) : List Nat :=
  if c.length < off + data.length
  then c ++ List.replicate (off + data.length - c.length) 0
  else c

/-! ## Helper lemmas -/

theorem wGrow_length (c : List Nat) (off : Nat) (data : List Nat) :
    (wGrow c off data).length = max c.length (off + data.length) := by
  unfold wGrow
  split <;> simp <;> omega

theorem Mem.insert_self (m : Mem) (k : Nat) (v : FileData) :
    Mem.insert m k v k = some v := by
  simp [Mem.insert]

theorem Mem.insert_ne (m : Mem) (k : Nat) (v : FileData) (i : Nat) (h : i ≠ k) :
    Mem.insert m k v i = m i := by
  simp [Mem.insert, h]

theorem Mem.erase_self (m : Mem) (k : Nat) : Mem.erase m k k = none := by
  simp [Mem.erase]

theorem Mem.erase_ne (m : Mem) (k i : Nat) (h : i ≠ k) : Mem.erase m k i = m i := by
  simp [Mem.erase, h]

theorem findEntry_eq_some {p : DirEntry → Bool} :
    ∀ {l : List DirEntry} {pos : Nat} {e : DirEntry},
      findEntry p l = some (pos, e) → l[pos]? = some e ∧ p e = true := by
  intro l
  induction l with
  | nil => intro pos e h; simp [findEntry] at h
  | cons a as ih =>
    intro pos e h
    by_cases hpa : p a
    · rw [findEntry, if_pos hpa] at h
      rw [Option.some.injEq, Prod.mk.injEq] at h
      obtain ⟨h1, h2⟩ := h
      subst h1; subst h2
      simpa using hpa
    · rw [findEntry, if_neg hpa] at h
      rw [Option.map_eq_some'] at h
      obtain ⟨q, hq, hpe⟩ := h
      rw [Prod.mk.injEq] at hpe
      obtain ⟨h1, h2⟩ := hpe
      subst h1; subst h2
      have := ih hq
      simpa using this

theorem findEntry_eq_none {p : DirEntry → Bool} :
    ∀ {l : List DirEntry}, (∀ e ∈ l, p e = false) → findEntry p l = none := by
  intro l
  induction l with
  | nil => intro _; rfl
  | cons a as ih =>
    intro h
    have ha : p a = false := h a (List.mem_cons_self a as)
    simp [findEntry, ha]
    exact ih (fun e he => h e (List.mem_cons_of_mem a he))

/-! ## C4 -/

/-- C4: whenever the store-level `rmdir` returns `false` — parent missing, no
directory-kind entry with the name, or target directory non-empty — the
adapter replies `ENOTEMPTY`, never `ENOENT`. -/
theorem rmdir_false_replies_not_empty (s : Store) (parent : Nat) (n : String)
    (now : Nat) (h : (InMemoryStorage.rmdir s parent n now).2 = false) :
    (fuseRmdir s parent (some n) now).2 = Except.error Errno.ENOTEMPTY := by
  unfold fuseRmdir
  simp [h]

/-- C4 witness: on a fresh store, `rmdir 1 "x"` fails at the store level and
the adapter replies `ENOTEMPTY`. -/
theorem rmdir_false_replies_not_empty_witness :
    (InMemoryStorage.rmdir (Store.new 0 0 0) 1 "x" 0).2 = false ∧
    (fuseRmdir (Store.new 0 0 0) 1 (some "x") 0).2 = Except.error Errno.ENOTEMPTY :=
  ⟨by decide, rmdir_false_replies_not_empty (Store.new 0 0 0) 1 "x" 0 (by decide)⟩

/-! ## C1 -/

/-- C1 (code bug): on a file with content `[1, 2, 3]`, `setattr` with
`size = 1` leaves the content at its full length `3` while the stored
attribute reports size `1` — the shrink path writes `content[..1]` back
through `write`, which never shrinks the buffer, so the truncation the spec
(and the code's own `// Truncate file if needed` comment) demands does not
happen, and content length no longer equals the reported size. -/
theorem setattr_shrink_does_not_truncate :
    ((fuseSetattr demoContentStore 2 none none none (some 1) 0).1.files 2).map
        (fun f => (f.attr.size, f.content)) = some (1, [1, 2, 3]) := by
  decide

/-! ## C2 -/

/-- C2 counterexample: the claim says a create under a nonexistent parent
leaves the child detached, with no entry appended to any parent. With
`parent = 2 = next_inode` on a fresh store, inode 2 does not exist before the
call, yet `create_file` first inserts the child record and then finds the
"parent" (the child itself) in the table and appends the entry to it: the
child ends up holding its own directory entry, not detached. -/
theorem create_detached_counterexample :
    (Store.new 0 0 0).files 2 = none ∧
    ((InMemoryStorage.create_file (Store.new 0 0 0) 2 "a" 0 0 0 0).1.files 2).map
        (fun f => f.children)
      = some [{ ino := 2, name := "a", kind := FileKind.File }] := by
  decide

/-- C2 (amended): `create_file`/`create_dir` always allocate and store the new
inode record and always return the new attribute record (never absent), so the
adapter's `EIO` reply for create/mkdir is never reached; when the parent does
not exist **and differs from the freshly allocated inode number**, the child
is left detached (no other record is touched, and the new record has an empty
child sequence); when the nonexistent parent equals the freshly allocated
number, the entry is appended to the new inode's own child sequence. -/
theorem create_always_some_and_detached (s : Store) (parent : Nat)
    (name : String) (perm uid gid now mode : Nat) (n2 : String) :
    (∃ a, (InMemoryStorage.create_file s parent name perm uid gid now).2 = some a) ∧
    (∃ a, (InMemoryStorage.create_dir s parent name perm uid gid now).2 = some a) ∧
    (fuseCreate s parent (some n2) mode uid gid now).2 ≠ Except.error Errno.EIO ∧
    (fuseMkdir s parent (some n2) mode uid gid now).2 ≠ Except.error Errno.EIO ∧
    (s.files parent = none → parent ≠ s.nextInode →
      (∀ i, i ≠ s.nextInode →
        (InMemoryStorage.create_file s parent name perm uid gid now).1.files i
          = s.files i) ∧
      (∃ f, (InMemoryStorage.create_file s parent name perm uid gid now).1.files
          s.nextInode = some f ∧ f.children = []) ∧
      (∀ i, i ≠ s.nextInode →
        (InMemoryStorage.create_dir s parent name perm uid gid now).1.files i
          = s.files i) ∧
      (∃ f, (InMemoryStorage.create_dir s parent name perm uid gid now).1.files
          s.nextInode = some f ∧ f.children = [])) := by
  refine ⟨⟨_, rfl⟩, ⟨_, rfl⟩, ?_, ?_, ?_⟩
  · unfold fuseCreate
    simp only [InMemoryStorage.create_file]
    intro hc
    cases hc
  · unfold fuseMkdir
    simp only [InMemoryStorage.create_dir]
    intro hc
    cases hc
  · intro hmiss hne
    have hpar1 : Mem.insert s.files s.nextInode
        { attr := { ino := s.nextInode, size := 0, kind := FileKind.File,
                    perm := perm, nlink := 1, uid := uid, gid := gid, rdev := 0,
                    flags := 0, atime := now, mtime := now, ctime := now },
          content := [], children := [] } parent = none := by
      rw [Mem.insert_ne _ _ _ _ hne]; exact hmiss
    have hpar2 : Mem.insert s.files s.nextInode
        { attr := { ino := s.nextInode, size := 0, kind := FileKind.Directory,
                    perm := perm, nlink := 2, uid := uid, gid := gid, rdev := 0,
                    flags := 0, atime := now, mtime := now, ctime := now },
          content := [], children := [] } parent = none := by
      rw [Mem.insert_ne _ _ _ _ hne]; exact hmiss
    refine ⟨?_, ?_, ?_, ?_⟩
    · intro i hi
      simp only [InMemoryStorage.create_file, InMemoryStorage.allocate_inode, hpar1]
      exact Mem.insert_ne _ _ _ _ hi
    · refine ⟨{ attr := { ino := s.nextInode, size := 0, kind := FileKind.File,
                          perm := perm, nlink := 1, uid := uid, gid := gid,
                          rdev := 0, flags := 0, atime := now, mtime := now,
                          ctime := now },
                content := [], children := [] }, ?_, rfl⟩
      simp only [InMemoryStorage.create_file, InMemoryStorage.allocate_inode, hpar1]
      exact Mem.insert_self _ _ _
    · intro i hi
      simp only [InMemoryStorage.create_dir, InMemoryStorage.allocate_inode, hpar2]
      exact Mem.insert_ne _ _ _ _ hi
    · refine ⟨{ attr := { ino := s.nextInode, size := 0, kind := FileKind.Directory,
                          perm := perm, nlink := 2, uid := uid, gid := gid,
                          rdev := 0, flags := 0, atime := now, mtime := now,
                          ctime := now },
                content := [], children := [] }, ?_, rfl⟩
      simp only [InMemoryStorage.create_dir, InMemoryStorage.allocate_inode, hpar2]
      exact Mem.insert_self _ _ _

/-- C2 witness: on a fresh store with nonexistent parent 5 (≠ next inode 2),
the creates return attribute records, the adapter does not reply `EIO`, the
root is untouched, and the new inode 2 is stored detached with no children. -/
theorem create_always_some_and_detached_witness :
    ((Store.new 0 0 0).files 5 = none ∧ (5 : Nat) ≠ (Store.new 0 0 0).nextInode) ∧
    ((∃ a, (InMemoryStorage.create_file (Store.new 0 0 0) 5 "a" 0 0 0 0).2 = some a) ∧
     (∃ a, (InMemoryStorage.create_dir (Store.new 0 0 0) 5 "a" 0 0 0 0).2 = some a) ∧
     (fuseCreate (Store.new 0 0 0) 5 (some "a") 0 0 0 0).2 ≠ Except.error Errno.EIO ∧
     (fuseMkdir (Store.new 0 0 0) 5 (some "a") 0 0 0 0).2 ≠ Except.error Errno.EIO ∧
     ((Store.new 0 0 0).files 5 = none → (5 : Nat) ≠ (Store.new 0 0 0).nextInode →
       (∀ i, i ≠ (Store.new 0 0 0).nextInode →
         (InMemoryStorage.create_file (Store.new 0 0 0) 5 "a" 0 0 0 0).1.files i
           = (Store.new 0 0 0).files i) ∧
       (∃ f, (InMemoryStorage.create_file (Store.new 0 0 0) 5 "a" 0 0 0 0).1.files
           (Store.new 0 0 0).nextInode = some f ∧ f.children = []) ∧
       (∀ i, i ≠ (Store.new 0 0 0).nextInode →
         (InMemoryStorage.create_dir (Store.new 0 0 0) 5 "a" 0 0 0 0).1.files i
           = (Store.new 0 0 0).files i) ∧
       (∃ f, (InMemoryStorage.create_dir (Store.new 0 0 0) 5 "a" 0 0 0 0).1.files
           (Store.new 0 0 0).nextInode = some f ∧ f.children = []))) :=
  ⟨⟨by decide, by decide⟩,
   create_always_some_and_detached (Store.new 0 0 0) 5 "a" 0 0 0 0 0 "a"⟩

/-! ## C3 -/

theorem dupStore_reachable : Reachable dupStore :=
  Reachable.create_file _ 1 "a" 0 0 0 0
    (Reachable.create_file _ 1 "a" 0 0 0 0 (Reachable.new 0 0 0))

/-- C3 counterexample: name uniqueness inside a directory is not an invariant
of the reachable states. Two `create_file 1 "a"` calls from a fresh store
reach `dupStore`, whose root directory's name sequence is `["a", "a"]` — not
pairwise distinct, refuting the claim at this concrete reachable state. -/
theorem dir_names_distinct_counterexample :
    Reachable dupStore ∧
    (dupStore.files 1).map (fun g => g.children.map (fun e => e.name))
      = some ["a", "a"] ∧
    ¬ (["a", "a"] : List String).Nodup :=
  ⟨dupStore_reachable, by decide, by decide⟩

/-- C3 (amended): the store does not enforce name uniqueness on insert — a
reachable state exists in which one directory's entry sequence holds two
entries with the same name. -/
theorem dup_names_reachable :
    ∃ s, Reachable s ∧ ∃ ino f, s.files ino = some f ∧
      ¬ (f.children.map (fun e => e.name)).Nodup := by
  refine ⟨dupStore, dupStore_reachable, 1, ?_⟩
  cases hfe : dupStore.files 1 with
  | none => exact absurd hfe (by decide)
  | some f =>
    refine ⟨f, rfl, ?_⟩
    have hmap : f.children.map (fun e => e.name) = ["a", "a"] := by
      have hall : (dupStore.files 1).map (fun g => g.children.map (fun e => e.name))
          = some ["a", "a"] := by decide
      rw [hfe] at hall
      simpa using hall
    rw [hmap]
    decide

/-! ## C5 -/

/-- C5: `read` is absent exactly when the inode does not exist; when it
exists, the result is the content slice from `offset` up to
`min(offset+length, content length)`, never longer than the requested length,
and empty (not absent) when the offset is at or beyond the content length. -/
theorem read_returns_clamped_slice (s : Store) (ino off n : Nat) :
    (InMemoryStorage.read s ino off n = none ↔ s.files ino = none) ∧
    (∀ f, s.files ino = some f →
      InMemoryStorage.read s ino off n
        = some ((f.content.take (min (off + n) f.content.length)).drop off) ∧
      ∀ r, InMemoryStorage.read s ino off n = some r →
        r.length ≤ n ∧ (f.content.length ≤ off → r = [])) := by
  constructor
  · unfold InMemoryStorage.read
    cases h : s.files ino <;> simp
  · intro f hf
    have hread : InMemoryStorage.read s ino off n
        = some ((f.content.take (min (off + n) f.content.length)).drop off) := by
      unfold InMemoryStorage.read
      rw [hf]
      simp only [Option.map_some']
      congr 1
      by_cases hle : f.content.length ≤ off
      · rw [if_pos hle]
        have : (f.content.take (min (off + n) f.content.length)).length ≤ off := by
          rw [List.length_take]
          omega
        exact (List.drop_eq_nil_of_le this).symm
      · rw [if_neg hle]
    refine ⟨hread, ?_⟩
    intro r hr
    rw [hread] at hr
    have hr' : r = (f.content.take (min (off + n) f.content.length)).drop off :=
      (Option.some.injEq _ _ ▸ hr).symm
    subst hr'
    constructor
    · rw [List.length_drop, List.length_take]
      omega
    · intro hle
      apply List.drop_eq_nil_of_le
      rw [List.length_take]
      omega

/-- C5 witness: on `demoContentStore` (file inode 2 holding `[1, 2, 3]`),
reading 5 bytes at offset 1 returns `[2, 3]`, the result length is at most 5,
and at offset 7 (past the end) the stored formula gives the empty list; a
missing inode 9 reads as absent. -/
theorem read_returns_clamped_slice_witness :
    (InMemoryStorage.read demoContentStore 9 0 1 = none ↔
        demoContentStore.files 9 = none) ∧
    (InMemoryStorage.read demoContentStore 2 1 5
        = some (((List.take (min (1 + 5) (List.length [1, 2, 3])) [1, 2, 3])).drop 1) ∧
      ∀ r, InMemoryStorage.read demoContentStore 2 1 5 = some r →
        r.length ≤ 5 ∧ (List.length ([1, 2, 3] : List Nat) ≤ 1 → r = [])) := by
  constructor
  · exact (read_returns_clamped_slice demoContentStore 9 0 1).1
  · have h := (read_returns_clamped_slice demoContentStore 2 1 5).2
    have hf : demoContentStore.files 2 = some
        { attr := { ino := 2, size := 3, kind := FileKind.File, perm := 0,
                    nlink := 1, uid := 0, gid := 0, rdev := 0, flags := 0,
                    atime := 0, mtime := 0, ctime := 0 },
          content := [1, 2, 3], children := [] } := by decide
    exact h _ hf

theorem write_spec_core (s : Store) (ino off : Nat) (data : List Nat) (now : Nat)
    (f : FileData) (hf : s.files ino = some f) :
    InMemoryStorage.write s ino off data now
      = ({ s with files := Mem.insert s.files ino
                             { f with
                               content := (wGrow f.content off data).take off ++ data
                                 ++ (wGrow f.content off data).drop (off + data.length),
                               attr := { f.attr with
                                         size := ((wGrow f.content off data).take off ++ data
                                           ++ (wGrow f.content off data).drop (off + data.length)).length,
                                         mtime := now } } },
         some data.length) := by
  simp only [InMemoryStorage.write, hf, wGrow]

theorem wGrow_take_length (c : List Nat) (off : Nat) (data : List Nat) :
    ((wGrow c off data).take off).length = off := by
  rw [List.length_take, wGrow_length]
  omega

theorem wGrow_getElem_lt (xs : List Nat) (off : Nat) (data : List Nat) (i : Nat)
    (h : i < off + data.length) :
    (wGrow xs off data)[i]? = if i < xs.length then xs[i]? else some 0 := by
  unfold wGrow
  split
  · rename_i hlt
    by_cases hi : i < xs.length
    · rw [List.getElem?_append_left hi, if_pos hi]
    · rw [if_neg hi]
      rw [List.getElem?_append_right (by omega)]
      rw [List.getElem?_replicate, if_pos (by omega)]
  · rename_i hge
    have hi : i < xs.length := by omega
    rw [if_pos hi]

theorem wGrow_getElem_ge (xs : List Nat) (off : Nat) (data : List Nat) (i : Nat)
    (h : off + data.length ≤ i) :
    (wGrow xs off data)[i]? = xs[i]? := by
  unfold wGrow
  split
  · rename_i hlt
    rw [List.getElem?_eq_none (by simp; omega), List.getElem?_eq_none (by omega)]
  · rfl

/-! ## C6 -/

/-- C6: for an existing inode, `write(id, o, b)` followed by
`read(id, o, len(b))` returns exactly `b`. -/
theorem write_then_read (s : Store) (ino off : Nat) (data : List Nat) (now : Nat)
    (f : FileData) (hf : s.files ino = some f) :
    ∃ s', InMemoryStorage.write s ino off data now = (s', some data.length) ∧
      InMemoryStorage.read s' ino off data.length = some data := by
  refine ⟨_, write_spec_core s ino off data now f hf, ?_⟩
  have hTlen : ((wGrow f.content off data).take off).length = off :=
    wGrow_take_length f.content off data
  simp only [InMemoryStorage.read, Mem.insert_self, Option.map_some']
  by_cases hle : ((wGrow f.content off data).take off ++ data
      ++ (wGrow f.content off data).drop (off + data.length)).length ≤ off
  · rw [if_pos hle]
    have hd : data.length = 0 := by
      rw [List.length_append, List.length_append, hTlen] at hle; omega
    have hnil : data = [] := List.length_eq_zero.mp hd
    rw [hnil]
  · rw [if_neg hle]
    have hmin : min (off + data.length)
        ((wGrow f.content off data).take off ++ data
          ++ (wGrow f.content off data).drop (off + data.length)).length
        = off + data.length := by
      rw [List.length_append, List.length_append, hTlen]; omega
    rw [hmin]
    have h1 : ((wGrow f.content off data).take off ++ data).length
        = off + data.length := by
      rw [List.length_append, hTlen]
    rw [List.take_left' h1, List.drop_left' hTlen]

/-- C6 witness: writing `[9, 9]` at offset 1 into file inode 2 of
`demoContentStore` and reading 2 bytes back at offset 1 returns `[9, 9]`. -/
theorem write_then_read_witness :
    ∃ s', InMemoryStorage.write demoContentStore 2 1 [9, 9] 0
        = (s', some (List.length [9, 9])) ∧
      InMemoryStorage.read s' 2 1 (List.length [9, 9]) = some [9, 9] :=
  write_then_read demoContentStore 2 1 [9, 9] 0
    { attr := { ino := 2, size := 3, kind := FileKind.File, perm := 0,
                nlink := 1, uid := 0, gid := 0, rdev := 0, flags := 0,
                atime := 0, mtime := 0, ctime := 0 },
      content := [1, 2, 3], children := [] }
    (by decide)

/-! ## C7 -/

/-- C7: for an existing inode, `write(id, offset, bytes)` zero-fills up to
`offset` when writing past the end, copies `bytes` into positions
`offset..offset+len(bytes)`, keeps the suffix beyond the written range,
refreshes the size to the new content length, and returns `len(bytes)`. -/
theorem write_grows_and_copies (s : Store) (ino off : Nat) (data : List Nat)
    (now : Nat) (f : FileData) (hf : s.files ino = some f) :
    ∃ s' f', InMemoryStorage.write s ino off data now = (s', some data.length) ∧
      s'.files ino = some f' ∧
      f'.content.length = max f.content.length (off + data.length) ∧
      f'.attr.size = f'.content.length ∧
      (∀ i, i < off →
        f'.content[i]? = if i < f.content.length then f.content[i]? else some 0) ∧
      (∀ i, off ≤ i → i < off + data.length → f'.content[i]? = data[i - off]?) ∧
      (∀ i, off + data.length ≤ i → f'.content[i]? = f.content[i]?) := by
  have hTlen : ((wGrow f.content off data).take off).length = off :=
    wGrow_take_length f.content off data
  have hglen : (wGrow f.content off data).length
      = max f.content.length (off + data.length) := wGrow_length f.content off data
  refine ⟨_, _, write_spec_core s ino off data now f hf, Mem.insert_self _ _ _,
    ?_, rfl, ?_, ?_, ?_⟩
  · simp only [List.length_append, List.length_drop, hTlen, hglen]
    omega
  · intro i hi
    rw [List.getElem?_append_left (by rw [List.length_append, hTlen]; omega),
        List.getElem?_append_left (by rw [hTlen]; omega),
        List.getElem?_take_of_lt hi]
    exact wGrow_getElem_lt f.content off data i (by omega)
  · intro i hge hlt
    rw [List.getElem?_append_left (by rw [List.length_append, hTlen]; omega),
        List.getElem?_append_right (by rw [hTlen]; omega), hTlen]
  · intro i hge
    rw [List.getElem?_append_right (by rw [List.length_append, hTlen]; omega)]
    rw [List.getElem?_drop]
    rw [List.length_append, hTlen]
    have harith : off + data.length + (i - (off + data.length)) = i := by omega
    rw [harith]
    exact wGrow_getElem_ge f.content off data i hge

/-- C7 witness: `write(id, 5, [88])` (the byte of `'X'`) on the empty file
inode 2 of `demoStore` yields content `[0, 0, 0, 0, 0, 88]` of length 6,
reported size 6, and returns 1. -/
theorem write_grows_and_copies_witness :
    (∃ s' f', InMemoryStorage.write demoStore 2 5 [88] 0
        = (s', some (List.length [88])) ∧
      s'.files 2 = some f' ∧
      f'.content.length = max (List.length ([] : List Nat)) (5 + List.length [88]) ∧
      f'.attr.size = f'.content.length ∧
      (∀ i, i < 5 →
        f'.content[i]? = if i < List.length ([] : List Nat)
                         then (([] : List Nat))[i]? else some 0) ∧
      (∀ i, 5 ≤ i → i < 5 + List.length [88] → f'.content[i]? = [88][i - 5]?) ∧
      (∀ i, 5 + List.length [88] ≤ i → f'.content[i]? = (([] : List Nat))[i]?)) ∧
    ((InMemoryStorage.write demoStore 2 5 [88] 0).1.files 2).map
        (fun f => (f.content, f.attr.size, f.attr.kind))
      = some ([0, 0, 0, 0, 0, 88], 6, FileKind.File) :=
  ⟨write_grows_and_copies demoStore 2 5 [88] 0
    { attr := { ino := 2, size := 0, kind := FileKind.File, perm := 0,
                nlink := 1, uid := 0, gid := 0, rdev := 0, flags := 0,
                atime := 0, mtime := 0, ctime := 0 },
      content := [], children := [] }
    (by decide),
   by decide⟩

/-! ## C8 -/

/-- C8: with a directory-kind entry found for `name` in `parent` (first match
at `pos`, record `cf`): if `cf` has children, `rmdir` fails with the state
unchanged; if `cf` has no children, it succeeds, removes the entry at `pos`,
decrements the parent link count by 1 (u32 wrapping; an exact decrement under
the `1 ≤ nlink < 2^32` bounds), and drops the child's record. -/
theorem rmdir_empty_dir_only (s : Store) (parent : Nat) (name : String)
    (now : Nat) (pf : FileData) (pos : Nat) (entry : DirEntry) (cf : FileData)
    (hp : s.files parent = some pf)
    (hfind : findEntry (fun e => e.name == name && e.kind == FileKind.Directory)
        pf.children = some (pos, entry))
    (hc : s.files entry.ino = some cf) :
    (cf.children ≠ [] → InMemoryStorage.rmdir s parent name now = (s, false)) ∧
    (cf.children = [] →
      (InMemoryStorage.rmdir s parent name now).2 = true ∧
      (∃ pf', (InMemoryStorage.rmdir s parent name now).1.files parent = some pf' ∧
        pf'.children = pf.children.eraseIdx pos ∧
        pf'.attr.nlink = (pf.attr.nlink + (2 ^ 32 - 1)) % 2 ^ 32 ∧
        (1 ≤ pf.attr.nlink → pf.attr.nlink < 2 ^ 32 →
          pf'.attr.nlink = pf.attr.nlink - 1)) ∧
      (InMemoryStorage.rmdir s parent name now).1.files entry.ino = none) := by
  have hmem : pf.children[pos]? = some entry := (findEntry_eq_some hfind).1
  constructor
  · intro hnonempty
    have hblocked : (!cf.children.isEmpty) = true := by
      cases hcc : cf.children with
      | nil => exact absurd hcc hnonempty
      | cons x xs => rfl
    simp only [InMemoryStorage.rmdir, hp, hfind, hc, hblocked, if_pos]
  · intro hempty
    have hblocked : (!cf.children.isEmpty) = false := by
      rw [hempty]; rfl
    have hne : parent ≠ entry.ino := by
      intro heq
      rw [← heq, hp] at hc
      cases hc
      rw [hempty] at hmem
      simp at hmem
    simp only [InMemoryStorage.rmdir, hp, hfind, hc, hblocked, Bool.false_eq_true,
      if_false]
    refine ⟨trivial, ⟨{ pf with
                        children := pf.children.eraseIdx pos,
                        attr := { pf.attr with
                                  mtime := now,
                                  nlink := (pf.attr.nlink + (2 ^ 32 - 1)) % 2 ^ 32 } },
                      ?_, rfl, rfl, ?_⟩, ?_⟩
    · rw [Mem.erase_ne _ _ _ hne, Mem.insert_self]
    · intro h1 h2
      simp only []
      omega
    · exact Mem.erase_self _ _

/-- C8 witness: removing the empty directory `"d"` (inode 3, entry position 1)
from the root of `demoStore` succeeds, erases the entry, decrements the root
link count 3 → 2, and drops inode 3's record. -/
theorem rmdir_empty_dir_only_witness :
    (InMemoryStorage.rmdir demoStore 1 "d" 0).2 = true ∧
    (∃ pf', (InMemoryStorage.rmdir demoStore 1 "d" 0).1.files 1 = some pf' ∧
      pf'.children = demoRoot.children.eraseIdx 1 ∧
      pf'.attr.nlink = (demoRoot.attr.nlink + (2 ^ 32 - 1)) % 2 ^ 32 ∧
      (1 ≤ demoRoot.attr.nlink → demoRoot.attr.nlink < 2 ^ 32 →
        pf'.attr.nlink = demoRoot.attr.nlink - 1)) ∧
    (InMemoryStorage.rmdir demoStore 1 "d" 0).1.files 3 = none :=
  (rmdir_empty_dir_only demoStore 1 "d" 0 demoRoot 1
      { ino := 3, name := "d", kind := FileKind.Directory }
      { attr := { ino := 3, size := 0, kind := FileKind.Directory, perm := 0,
                  nlink := 2, uid := 0, gid := 0, rdev := 0, flags := 0,
                  atime := 0, mtime := 0, ctime := 0 },
        content := [], children := [] }
      (by decide) (by decide) (by decide)).2 rfl

/-! ## C9 -/

theorem filter_eraseIdx_of_pred_false {α : Type} (p : α → Bool) :
    ∀ (l : List α) (i : Nat) (x : α), l[i]? = some x → p x = false →
      (l.eraseIdx i).filter p = l.filter p := by
  intro l
  induction l with
  | nil => intro i x h _; simp at h
  | cons a as ih =>
    intro i x h hpx
    cases i with
    | zero =>
      simp only [List.getElem?_cons_zero, Option.some.injEq] at h
      subst h
      simp [List.eraseIdx_cons_zero, List.filter_cons, hpx]
    | succ n =>
      simp only [List.getElem?_cons_succ] at h
      rw [List.eraseIdx_cons_succ, List.filter_cons, List.filter_cons,
        ih n x h hpx]

/-- C9: `unlink` never removes a directory-kind entry — when every entry
matching `name` is directory-kind it returns `false` and changes nothing, and
whenever the parent survives an `unlink` its directory-kind entries are
untouched; symmetrically, `rmdir` never removes a file-kind entry. -/
theorem unlink_rmdir_kind_disjoint (s : Store) (parent : Nat) (name : String)
    (now : Nat) :
    (∀ pf, s.files parent = some pf →
      ((∀ e ∈ pf.children, e.name = name → e.kind = FileKind.Directory) →
        InMemoryStorage.unlink s parent name now = (s, false)) ∧
      ((∀ e ∈ pf.children, e.name = name → e.kind = FileKind.File) →
        InMemoryStorage.rmdir s parent name now = (s, false))) ∧
    (∀ pf pf', s.files parent = some pf →
      (InMemoryStorage.unlink s parent name now).1.files parent = some pf' →
      pf'.children.filter (fun e => e.kind == FileKind.Directory)
        = pf.children.filter (fun e => e.kind == FileKind.Directory)) ∧
    (∀ pf pf', s.files parent = some pf →
      (InMemoryStorage.rmdir s parent name now).1.files parent = some pf' →
      pf'.children.filter (fun e => e.kind == FileKind.File)
        = pf.children.filter (fun e => e.kind == FileKind.File)) := by
  refine ⟨?_, ?_, ?_⟩
  · intro pf hp
    constructor
    · intro hall
      have hnone : findEntry (fun e => e.name == name && e.kind == FileKind.File)
          pf.children = none := by
        apply findEntry_eq_none
        intro e he
        by_cases hn : e.name = name
        · have : e.kind = FileKind.Directory := hall e he hn
          simp [this]
        · simp [hn]
      simp only [InMemoryStorage.unlink, hp, hnone]
    · intro hall
      have hnone : findEntry (fun e => e.name == name && e.kind == FileKind.Directory)
          pf.children = none := by
        apply findEntry_eq_none
        intro e he
        by_cases hn : e.name = name
        · have : e.kind = FileKind.File := hall e he hn
          simp [this]
        · simp [hn]
      simp only [InMemoryStorage.rmdir, hp, hnone]
  · intro pf pf' hp hafter
    cases hfind : findEntry (fun e => e.name == name && e.kind == FileKind.File)
        pf.children with
    | none =>
      simp only [InMemoryStorage.unlink, hp, hfind] at hafter
      cases hafter
      rfl
    | some q =>
      simp only [InMemoryStorage.unlink, hp, hfind] at hafter
      by_cases hpe : parent = q.2.ino
      · rw [hpe, Mem.erase_self] at hafter
        cases hafter
      · rw [Mem.erase_ne _ _ _ hpe, Mem.insert_self] at hafter
        have hq : pf.children[q.1]? = some q.2
            ∧ (fun e => e.name == name && e.kind == FileKind.File) q.2 = true :=
          findEntry_eq_some (by rw [hfind])
        have hkind : (q.2.kind == FileKind.Directory) = false := by
          have := hq.2
          simp only [Bool.and_eq_true, beq_iff_eq] at this
          simp [this.2]
        cases hafter
        exact filter_eraseIdx_of_pred_false _ pf.children q.1 q.2 hq.1 hkind
  · intro pf pf' hp hafter
    cases hfind : findEntry (fun e => e.name == name && e.kind == FileKind.Directory)
        pf.children with
    | none =>
      simp only [InMemoryStorage.rmdir, hp, hfind] at hafter
      cases hafter
      rfl
    | some q =>
      simp only [InMemoryStorage.rmdir, hp, hfind] at hafter
      by_cases hblock : (match s.files q.2.ino with
        | some dir => !dir.children.isEmpty
        | none => false) = true
      · rw [if_pos hblock] at hafter
        dsimp only at hafter
        rw [hp] at hafter
        cases hafter
        rfl
      · rw [if_neg hblock] at hafter
        dsimp only at hafter
        by_cases hpe : parent = q.2.ino
        · subst hpe
          rw [Mem.erase_self] at hafter
          cases hafter
        · rw [Mem.erase_ne _ _ _ hpe, Mem.insert_self] at hafter
          have hq : pf.children[q.1]? = some q.2
              ∧ (fun e => e.name == name && e.kind == FileKind.Directory) q.2 = true :=
            findEntry_eq_some (by rw [hfind])
          have hkind : (q.2.kind == FileKind.File) = false := by
            have := hq.2
            simp only [Bool.and_eq_true, beq_iff_eq] at this
            simp [this.2]
          cases hafter
          exact filter_eraseIdx_of_pred_false _ pf.children q.1 q.2 hq.1 hkind

/-- C9 witness: in `demoStore`, `"d"` names only a directory-kind entry so
`unlink 1 "d"` returns `false` with the state unchanged, and `"a"` names only
a file-kind entry so `rmdir 1 "a"` returns `false` with the state unchanged. -/
theorem unlink_rmdir_kind_disjoint_witness :
    InMemoryStorage.unlink demoStore 1 "d" 0 = (demoStore, false) ∧
    InMemoryStorage.rmdir demoStore 1 "a" 0 = (demoStore, false) :=
  ⟨((unlink_rmdir_kind_disjoint demoStore 1 "d" 0).1 demoRoot (by decide)).1
      (by decide),
   ((unlink_rmdir_kind_disjoint demoStore 1 "a" 0).1 demoRoot (by decide)).2
      (by decide)⟩

/-! ## C10 -/

theorem entSeq_length : ∀ (i : Nat) (children : List DirEntry),
    (entSeq i children).length = children.length := by
  intro i children
  induction children generalizing i with
  | nil => rfl
  | cons e es ih => simp [entSeq, ih]

theorem entSeq_getElem : ∀ (children : List DirEntry) (i j : Nat),
    (entSeq i children)[j]?
      = (children[j]?).map (fun e => (e.ino, i + j + 3, e.kind, e.name)) := by
  intro children
  induction children with
  | nil => intro i j; simp [entSeq]
  | cons e es ih =>
    intro i j
    cases j with
    | zero => simp [entSeq]
    | succ n =>
      simp only [entSeq, List.getElem?_cons_succ]
      rw [ih (i + 1) n]
      have harith : i + 1 + n + 3 = i + (n + 1) + 3 := by omega
      rw [harith]

theorem dirSeq_length (ino : Nat) (children : List DirEntry) :
    (dirSeq ino children).length = 2 + children.length := by
  simp [dirSeq, entSeq_length]
  omega

theorem dirSeq_cursor (ino : Nat) (children : List DirEntry) (p : Nat)
    (hp : p < 2 + children.length) :
    ((dirSeq ino children)[p]?).map (fun r => r.2.1) = some (p + 1) := by
  match p with
  | 0 => simp [dirSeq]
  | 1 => simp [dirSeq]
  | n + 2 =>
    simp only [dirSeq, List.getElem?_cons_succ]
    rw [entSeq_getElem]
    have hn : n < children.length := by omega
    rw [List.getElem?_eq_getElem hn]
    simp only [Option.map_some']
    have harith : 0 + n + 3 = n + 2 + 1 := by omega
    rw [harith]

theorem readdirLoop_no_skip (cap offset : Nat) :
    ∀ (children : List DirEntry) (i : Nat) (buf : List ROut),
      offset ≤ i + 2 →
      readdirLoop cap offset i children buf
        = buf ++ (entSeq i children).take (cap - buf.length) := by
  intro children
  induction children with
  | nil => intro i buf h; simp [readdirLoop, entSeq]
  | cons e es ih =>
    intro i buf h
    rw [readdirLoop, if_neg (by omega), replyAdd]
    by_cases hcap : cap ≤ buf.length
    · rw [if_pos hcap]
      dsimp only
      have hz : cap - buf.length = 0 := by omega
      rw [entSeq, hz]
      simp
    · rw [if_neg hcap]
      dsimp only
      rw [ih (i + 1) (buf ++ [(e.ino, i + 3, e.kind, e.name)]) (by omega)]
      rw [entSeq]
      have hlen : (buf ++ [((e.ino, i + 3, e.kind, e.name) : ROut)]).length
          = buf.length + 1 := by simp
      rw [hlen]
      have hsucc : cap - buf.length = (cap - (buf.length + 1)) + 1 := by omega
      rw [hsucc, List.take_succ_cons, List.append_assoc]
      rfl

theorem readdirLoop_skip (cap offset : Nat) :
    ∀ (children : List DirEntry) (i : Nat),
      readdirLoop cap offset i children []
        = ((entSeq i children).drop (offset - (i + 2))).take cap := by
  intro children
  induction children with
  | nil => intro i; simp [readdirLoop, entSeq]
  | cons e es ih =>
    intro i
    by_cases hskip : i + 2 < offset
    · rw [readdirLoop, if_pos hskip, ih (i + 1)]
      rw [entSeq]
      have hsucc : offset - (i + 2) = (offset - (i + 1 + 2)) + 1 := by omega
      rw [hsucc, List.drop_succ_cons]
    · rw [readdirLoop_no_skip cap offset (e :: es) i [] (by omega)]
      have hz : offset - (i + 2) = 0 := by omega
      rw [hz, List.drop_zero]
      simp

theorem readdirBuf_eq (children : List DirEntry) (ino offset cap : Nat) :
    readdirBuf children ino offset cap
      = ((dirSeq ino children).drop offset).take cap := by
  by_cases h0 : offset = 0
  · subst h0
    rw [readdirBuf, if_pos rfl, replyAdd, List.drop_zero]
    by_cases hc0 : cap ≤ List.length ([] : List ROut)
    · rw [if_pos hc0]
      dsimp only
      have hcz : cap = 0 := by simpa using hc0
      subst hcz
      rfl
    · rw [if_neg hc0]
      dsimp only
      rw [List.nil_append, replyAdd]
      by_cases hc1 : cap ≤ List.length [((ino, 1, FileKind.Directory, ".") : ROut)]
      · rw [if_pos hc1]
        dsimp only
        have hco : cap = 1 := by
          simp only [List.length_singleton] at hc1
          simp only [List.length_nil] at hc0
          omega
        subst hco
        rfl
      · rw [if_neg hc1]
        dsimp only
        rw [readdirLoop_no_skip cap 0 children 0 _ (by omega)]
        have hc2 : 2 ≤ cap := by
          simp only [List.length_singleton] at hc1
          omega
        have hcs : cap = (cap - 2) + 1 + 1 := by omega
        rw [dirSeq]
        conv_rhs => rw [hcs]
        rw [List.take_succ_cons, List.take_succ_cons]
        simp only [List.singleton_append, List.length_cons, List.length_singleton]
        rfl
  · by_cases h1 : offset ≤ 1
    · have ho : offset = 1 := by omega
      subst ho
      rw [readdirBuf, if_neg (by omega), if_pos (by omega), replyAdd]
      by_cases hc0 : cap ≤ List.length ([] : List ROut)
      · rw [if_pos hc0]
        dsimp only
        have hcz : cap = 0 := by simpa using hc0
        subst hcz
        rfl
      · rw [if_neg hc0]
        dsimp only
        rw [List.nil_append]
        rw [readdirLoop_no_skip cap 1 children 0 _ (by omega)]
        have hc1 : 1 ≤ cap := by
          simp only [List.length_nil] at hc0
          omega
        have hcs : cap = (cap - 1) + 1 := by omega
        rw [dirSeq, List.drop_succ_cons, List.drop_zero]
        conv_rhs => rw [hcs]
        rw [List.take_succ_cons]
        simp only [List.length_singleton]
        rfl
    · rw [readdirBuf, if_neg h0, if_neg h1]
      rw [readdirLoop_skip cap offset children 0]
      rw [dirSeq]
      have hos : offset = (offset - 2) + 1 + 1 := by omega
      conv_rhs => rw [hos]
      rw [List.drop_succ_cons, List.drop_succ_cons]

/-- C10: directory enumeration is stable and resumable. For an existing
directory and any reply-buffer capacity `k ≥ 1` at which the channel reports
full, enumerating from cursor 0 and then resuming once from the last returned
cursor with enough capacity `K` yields exactly the unbroken enumeration, whose
positions 0 and 1 are always the synthesized `.` and `..` entries. -/
theorem readdir_resumable (s : Store) (ino : Nat) (f : FileData) (k K : Nat)
    (hf : s.files ino = some f) (hk : 1 ≤ k) (hK : 2 + f.children.length ≤ K) :
    ∃ E1 lastE E2 U,
      fuseReaddir s ino 0 k = some E1 ∧
      E1 ≠ [] ∧
      E1.getLast? = some lastE ∧
      fuseReaddir s ino lastE.2.1 K = some E2 ∧
      fuseReaddir s ino 0 K = some U ∧
      E1 ++ E2 = U ∧
      U[0]? = some (ino, 1, FileKind.Directory, ".") ∧
      U[1]? = some (ino, 2, FileKind.Directory, "..") := by
  have hrd : InMemoryStorage.read_dir s ino = some f.children := by
    simp [InMemoryStorage.read_dir, hf]
  have hDlen : (dirSeq ino f.children).length = 2 + f.children.length :=
    dirSeq_length ino f.children
  set D := dirSeq ino f.children with hD
  set c := min k (2 + f.children.length) with hc
  have hc1 : 1 ≤ c := by omega
  have hE1 : fuseReaddir s ino 0 k = some (D.take k) := by
    simp only [fuseReaddir, hrd, Option.map_some']
    rw [readdirBuf_eq, List.drop_zero]
  have hE1len : (D.take k).length = c := by
    rw [List.length_take, hDlen]
  have hE1ne : D.take k ≠ [] := List.ne_nil_of_length_pos (by omega)
  have hlast : (D.take k).getLast? = D[c - 1]? := by
    rw [List.getLast?_eq_getElem?, hE1len, List.getElem?_take_of_lt (by omega)]
  have hcur : (D[c - 1]?).map (fun r => r.2.1) = some c := by
    have h2 := dirSeq_cursor ino f.children (c - 1) (by omega)
    rw [← hD] at h2
    rw [h2]
    have harith : c - 1 + 1 = c := by omega
    rw [harith]
  obtain ⟨lastE, hlastE, hlcur⟩ := Option.map_eq_some'.mp hcur
  have hdroplen : (D.drop c).length ≤ K := by
    rw [List.length_drop, hDlen]
    omega
  have hE2 : fuseReaddir s ino c K = some (D.drop c) := by
    simp only [fuseReaddir, hrd, Option.map_some']
    rw [readdirBuf_eq, ← hD, List.take_of_length_le hdroplen]
  have hU : fuseReaddir s ino 0 K = some D := by
    simp only [fuseReaddir, hrd, Option.map_some']
    rw [readdirBuf_eq, List.drop_zero, ← hD,
      List.take_of_length_le (by rw [hDlen]; omega)]
  refine ⟨D.take k, lastE, D.drop c, D, hE1, hE1ne, ?_, ?_, hU, ?_, ?_, ?_⟩
  · rw [hlast, hlastE]
  · rw [hlcur]
    exact hE2
  · have htk : D.take k = D.take c := by
      by_cases hkL : k ≤ 2 + f.children.length
      · have hck : c = k := by omega
        rw [hck]
      · have hceq : c = 2 + f.children.length := by omega
        rw [List.take_of_length_le (by omega), hceq, ← hDlen, List.take_length]
    rw [htk, List.take_append_drop]
  · rw [hD]
    simp [dirSeq]
  · rw [hD]
    simp [dirSeq]

/-- C10 witness: enumerating the root of `demoStore` (entries `"a"`, `"d"`)
with capacity 3, then resuming from the last returned cursor with capacity 10,
reproduces the unbroken enumeration headed by `.` and `..`. -/
theorem readdir_resumable_witness :
    ∃ E1 lastE E2 U,
      fuseReaddir demoStore 1 0 3 = some E1 ∧
      E1 ≠ [] ∧
      E1.getLast? = some lastE ∧
      fuseReaddir demoStore 1 lastE.2.1 10 = some E2 ∧
      fuseReaddir demoStore 1 0 10 = some U ∧
      E1 ++ E2 = U ∧
      U[0]? = some (1, 1, FileKind.Directory, ".") ∧
      U[1]? = some (1, 2, FileKind.Directory, "..") :=
  readdir_resumable demoStore 1 demoRoot 3 10 (by decide) (by decide) (by decide)
